import Mathlib

/-!
The inotify watch loop of examplemount.

A shallow embedding of `src/examplemount/examplemount.c`.

* The read buffer is byte-addressed memory seen from `buf`; a record is the
  view `(struct inotify_event *) p` at a byte offset `p`.
* Operating-system calls are answered by a script (`OS`): every call has a
  return value and the value `errno` holds after it.
* A run of `main` is the list of calls it makes, in order, and an outcome.
* Output is kept as the `printf` calls made, format and arguments. A `%s` of
  `i->name` is the C string found in memory at that address, up to the first
  NUL and whatever `len` says; it is looked for as far as the array `buf`
  reaches.
* The signal handler `sighandle` only writes a fixed message at the moment a
  signal arrives; what reaches `main` is the interrupted `read` (`EINTR`).
* `errno` is read by `eprintf` right after the failing call; the `sprintf`
  calls in between leave it alone.

Platform assumptions (Linux, LP64, little-endian): `sizeof(struct
inotify_event)` is 16, `size_t` has 64 bits, `NAME_MAX` is 255, `EINTR` is 4,
and the `IN_*` bits are the ones of `<sys/inotify.h>`.
-/

namespace Examplemount

/-! ## Data model -/

/-- Memory addressed in bytes from `buf`: offset `i` holds `mem i % 256`. -/
abbrev Mem := Nat → Nat

/-- The value of `sizeof(struct inotify_event)`: four 32-bit fields. -/
def SIZEOF_INOTIFY_EVENT : Nat := 16

/-- The value of `NAME_MAX` in `<limits.h>`. -/
def NAME_MAX : Nat := 255

/-- Line 10: `#define BUF_LEN (10 * (sizeof(struct inotify_event) + NAME_MAX + 1))`. -/
def BUF_LEN : Nat := 10 * (SIZEOF_INOTIFY_EVENT + NAME_MAX + 1)

/-- The value of `EINTR` in `<errno.h>`. -/
def EINTR : Int := 4

/-- The value of `EXIT_SUCCESS`. -/
def EXIT_SUCCESS : Int := 0

/-- The record `struct inotify_event`: `int wd; uint32_t mask, cookie, len;
char name[]`, the name being the `len` bytes behind the header. -/
structure InotifyEvent where
  wd : Int
  mask : Nat
  cookie : Nat
  len : Nat
  name : List Nat
deriving DecidableEq, Repr

/-- One byte of memory. -/
def byteAt (buf : Mem) (i : Nat) : Nat := buf i % 256

/-- A `uint32_t` load at byte offset `p` (little-endian). -/
def readU32 (buf : Mem) (p : Nat) : Nat :=
  byteAt buf p + 256 * byteAt buf (p + 1) + 65536 * byteAt buf (p + 2)
    + 16777216 * byteAt buf (p + 3)

/-- The `int` with the bit pattern of a 32-bit word. -/
def toInt32 (n : Nat) : Int := if n < 2 ^ 31 then (n : Int) else (n : Int) - 2 ^ 32

/-- The `unsigned int` with the bit pattern of an `int` (what `%x` prints). -/
def toU32 (i : Int) : Nat := (i % 2 ^ 32).toNat

/-- The `len` bytes starting at offset `p`. -/
def readBytes (buf : Mem) (p len : Nat) : List Nat :=
  (List.range len).map (fun k => byteAt buf (p + k))

/-- The view `event = (struct inotify_event *) p` of line 228. -/
def eventAt (buf : Mem) (p : Nat) : InotifyEvent :=
  { wd := toInt32 (readU32 buf p)
    mask := readU32 buf (p + 4)
    cookie := readU32 buf (p + 8)
    len := readU32 buf (p + 12)
    name := readBytes buf (p + 16) (readU32 buf (p + 12)) }

/-- Line 231: the cursor advance `sizeof(struct inotify_event) + event->len`,
computed in `size_t`. -/
def advance (event : InotifyEvent) : Nat := (SIZEOF_INOTIFY_EVENT + event.len) % 2 ^ 64

/-- Lines 227-232, `for (p = buf; p < buf + numRead; ) ...`, from cursor `p`,
listing the records handed to `displayInotifyEvent`. One unit of fuel is one
iteration; `none` means the fuel ran out with the loop condition still true. -/
def eventLoopFuel (buf : Mem) (numRead : Int) : Nat → Nat → Option (List InotifyEvent)
  | 0, p => if (p : Int) < numRead then none else some []
  | fuel + 1, p =>
    if (p : Int) < numRead then
      let event := eventAt buf p
      (eventLoopFuel buf numRead fuel (p + advance event)).map (fun evs => event :: evs)
    else some []

/-- The number of iterations granted to the loop of lines 227-232: the
ceiling of `numRead / 16`. -/
def loopBound (numRead : Int) : Nat := (numRead.toNat + 15) / 16

/-- The records of one read, lines 225-232. -/
def eventLoop (buf : Mem) (numRead : Int) : List InotifyEvent :=
  (eventLoopFuel buf numRead (loopBound numRead) 0).getD []

/-! ## Encoded records (the layout the kernel writes) -/

/-- The four bytes of a 32-bit word, little-endian. -/
def le32 (n : Nat) : List Nat :=
  [n % 256, n / 256 % 256, n / 65536 % 256, n / 16777216 % 256]

/-- A record as bytes: the 16-byte header `wd, mask, cookie, len`, then the name. -/
def encodeEvent (e : InotifyEvent) : List Nat :=
  le32 (toU32 e.wd) ++ le32 e.mask ++ le32 e.cookie ++ le32 e.len ++ e.name

/-- The concatenation of encoded records. -/
def encodeEvents : List InotifyEvent → List Nat
  | [] => []
  | e :: es => encodeEvent e ++ encodeEvents es

/-- A record whose fields fit their C types and whose `len` is the length of
its name. -/
def WellFormed (e : InotifyEvent) : Prop :=
  -(2 : Int) ^ 31 ≤ e.wd ∧ e.wd < 2 ^ 31 ∧ e.mask < 2 ^ 32 ∧ e.cookie < 2 ^ 32 ∧
    e.len < 2 ^ 32 ∧ e.len = e.name.length ∧ ∀ b ∈ e.name, b < 256

instance (e : InotifyEvent) : Decidable (WellFormed e) := by
  unfold WellFormed; exact inferInstance

/-- Memory holding `bytes` from offset 0 and `rest` behind them. -/
def load (bytes : List Nat) (rest : Mem) : Mem := fun i => bytes.getD i (rest i)

/-! ## Calls and output -/

/-- An argument of a `printf`-style call, named after its conversion. -/
inductive Arg where
  /-- `%x` of an unsigned value. -/
  | x (n : Nat)
  /-- `%i` of an `int`. -/
  | i (v : Int)
  /-- `%ld` of a `long`. -/
  | ld (v : Int)
  /-- `%s` of a C string. -/
  | s (text : String)
  /-- `%s` of a C string in the array `buf`: the bytes before its first NUL, or
  `none` when the array ends before a NUL (the read leaves the array). -/
  | sbytes (text : Option (List Nat))
  /-- `%s` of `strerror(code)`. -/
  | strerror (code : Int)
deriving DecidableEq, Repr

/-- What a run does that is visible outside it: output, operating-system
calls, and the entries into `displayInotifyEvent` and `shutdown`. -/
inductive Call where
  | printf (fmt : String) (args : List Arg)
  | fprintf_stderr (fmt : String) (args : List Arg)
  | write_stderr (msg : String) (count : Nat)
  | inotify_init
  | getcwd
  | inotify_add_watch (fd : Int) (path : Option String) (mask : Nat)
  | sigaction (signum : String)
  | getpid
  | read (fd : Int) (count : Nat)
  | displayInotifyEvent (event : InotifyEvent)
  | inotify_rm_watch (fd wd : Int)
  | close (fd : Int)
  | shutdown
deriving DecidableEq, Repr

/-- The value of `strlen`: the number of bytes of the string. -/
def strlen (s : String) : Nat := s.utf8ByteSize

/-- The text `%x` prints for an unsigned value. -/
def hex (n : Nat) : String := String.mk (Nat.toDigits 16 n)

/-- The C string at the start of a stretch of memory: the bytes before the
first NUL, `none` when the stretch holds no NUL. -/
def cStringIn : List Nat → Option (List Nat)
  | [] => none
  | b :: rest => if b = 0 then some [] else (cStringIn rest).map (fun text => b :: text)

/-! ## `eprintf`, lines 15-51 -/

/-- Lines 15-51. `errno` is the value the variable holds on entry; the result
is the returned code and the output made. A `NULL` message is `none`. -/
def eprintf (errno : Int) (message : Option String) (safe : Bool) : Int × List Call :=
  let result := errno
  match message with
  | none => (result, [])
  | some message =>
    if safe then
      let len_max : Nat := 256
      let msgPre := "\n"
      let msgSuf := ": (safe operation doesn't support formatting)\n"
      let len_message := strlen msgPre + strlen message + strlen msgSuf
      if len_message < len_max then
        (result, [Call.write_stderr (msgPre ++ message ++ msgSuf) len_message])
      else
        let message_default := "(message too long)"
        let len_message := strlen msgPre + strlen message_default + strlen msgSuf
        (result, [Call.write_stderr (msgPre ++ message_default ++ msgSuf) len_message])
    else
      (result, [Call.fprintf_stderr "%s: (0x%x) - %s\n"
        [Arg.s message, Arg.x (toU32 result), Arg.strerror result]])

/-! ## `displayInotifyEvent`, lines 53-86 -/

/-- The event bits of `<sys/inotify.h>`. -/
def IN_ACCESS : Nat := 0x00000001
def IN_MODIFY : Nat := 0x00000002
def IN_ATTRIB : Nat := 0x00000004
def IN_CLOSE_WRITE : Nat := 0x00000008
def IN_CLOSE_NOWRITE : Nat := 0x00000010
def IN_OPEN : Nat := 0x00000020
def IN_MOVED_FROM : Nat := 0x00000040
def IN_MOVED_TO : Nat := 0x00000080
def IN_CREATE : Nat := 0x00000100
def IN_DELETE : Nat := 0x00000200
def IN_DELETE_SELF : Nat := 0x00000400
def IN_MOVE_SELF : Nat := 0x00000800
def IN_UNMOUNT : Nat := 0x00002000
def IN_Q_OVERFLOW : Nat := 0x00004000
def IN_IGNORED : Nat := 0x00008000
def IN_ISDIR : Nat := 0x40000000

/-- The mask `IN_ALL_EVENTS` of `<sys/inotify.h>`: the twelve bits 0 to 11. -/
def IN_ALL_EVENTS : Nat := 0x00000fff

/-- One line `if (i->mask & BIT) printf("NAME ");`. -/
def printKind (mask bit : Nat) (name : String) : List Call :=
  if mask &&& bit ≠ 0 then [Call.printf name []] else []

/-- Lines 63-78: the sixteen tests of the mask, in source order. -/
def displayMask (mask : Nat) : List Call :=
  printKind mask IN_ACCESS "IN_ACCESS " ++
  printKind mask IN_ATTRIB "IN_ATTRIB " ++
  printKind mask IN_CLOSE_NOWRITE "IN_CLOSE_NOWRITE " ++
  printKind mask IN_CLOSE_WRITE "IN_CLOSE_WRITE " ++
  printKind mask IN_CREATE "IN_CREATE " ++
  printKind mask IN_DELETE "IN_DELETE " ++
  printKind mask IN_DELETE_SELF "IN_DELETE_SELF " ++
  printKind mask IN_IGNORED "IN_IGNORED " ++
  printKind mask IN_ISDIR "IN_ISDIR " ++
  printKind mask IN_MODIFY "IN_MODIFY " ++
  printKind mask IN_MOVE_SELF "IN_MOVE_SELF " ++
  printKind mask IN_MOVED_FROM "IN_MOVED_FROM " ++
  printKind mask IN_MOVED_TO "IN_MOVED_TO " ++
  printKind mask IN_OPEN "IN_OPEN " ++
  printKind mask IN_Q_OVERFLOW "IN_Q_OVERFLOW " ++
  printKind mask IN_UNMOUNT "IN_UNMOUNT "

/-- Lines 53-86: the `printf` calls that make up the line of one record.
`atName` is the memory `i->name` points to, the bytes from there to the end of
the array `buf`: `%s` prints them up to the first NUL, whatever `len` is. -/
def displayInotifyEvent (i : InotifyEvent) (atName : List Nat) : List Call :=
  [Call.printf "Inotify event: wd = 0x%x" [Arg.x (toU32 i.wd)]] ++
  (if i.cookie > 0 then [Call.printf "; cookie = 0x%x" [Arg.x i.cookie]] else []) ++
  [Call.printf "; mask = " []] ++
  displayMask i.mask ++
  (if i.len > 0 then [Call.printf "; name = %s" [Arg.sbytes (cStringIn atName)]] else []) ++
  [Call.printf "\n" []]

/-! ## The operating system -/

/-- The answer to one call: the value returned and `errno` after the call. -/
structure Ret where
  val : Int
  errno : Int

/-- The answer to one `read(fd, buf, BUF_LEN)`: the value returned (`numRead`),
`errno` after the call, and the memory at `buf` after the call. -/
structure ReadRet where
  val : Int
  errno : Int
  buf : Mem

/-- The answers of the operating system during one run. `reads` answers the
successive `read` calls; when it is used up the next `read` never returns.
`getcwd` is `none` when `getcwd(NULL, 0)` returns `NULL`. No run calls
`inotify_rm_watch` or `close` twice, so each has one answer. -/
structure OS where
  inotify_init : Ret
  getcwd : Option String
  inotify_add_watch : Ret
  sigaction_SIGINT : Ret
  sigaction_SIGTERM : Ret
  getpid : Int
  reads : List ReadRet
  inotify_rm_watch : Ret
  close : Ret

/-- How a run ends: `main` returns a code; or it stays blocked in `read`; or
it runs into undefined behaviour (`sprintf` past the end of `msg[256]`, `%s`
of a null pointer). -/
inductive Outcome where
  | returned (code : Int)
  | blocked
  | undefined
deriving DecidableEq, Repr

/-- A run: the calls made, in order, and the outcome. -/
structure Run where
  trace : List Call
  outcome : Outcome
deriving DecidableEq, Repr

/-- The run `r` preceded by the calls `t`. -/
def Run.after (t : List Call) (r : Run) : Run := ⟨t ++ r.trace, r.outcome⟩

/-! ## `shutdown`, lines 113-136 -/

/-- Lines 125-135: the second half of `shutdown`. -/
def shutdownFd (os : OS) (fd : Int) : Int × List Call :=
  if fd > 0 then
    let t := [Call.printf "Closing inotify file  descriptor 0x%x.\n" [Arg.x (toU32 fd)],
      Call.close fd]
    if os.close.val = -1 then
      let r := eprintf os.close.errno (some ("close 0x" ++ hex (toU32 fd))) false
      (r.1, t ++ r.2)
    else (EXIT_SUCCESS, t)
  else (EXIT_SUCCESS, [])

/-- Lines 113-136, with the globals `fd` and `wd` as arguments: the returned
code and the calls made. The two messages built with `sprintf` have at most 27
bytes and fit `msg[256]`. -/
def shutdown (os : OS) (fd wd : Int) : Int × List Call :=
  if wd > 0 then
    let t := [Call.shutdown,
      Call.printf "Closing inotify watch descriptor 0x%x.\n" [Arg.x (toU32 wd)],
      Call.inotify_rm_watch fd wd]
    if os.inotify_rm_watch.val = -1 then
      let r := eprintf os.inotify_rm_watch.errno
        (some ("inotify_rm_watch 0x" ++ hex (toU32 wd))) false
      (r.1, t ++ r.2)
    else
      let r := shutdownFd os fd
      (r.1, t ++ r.2)
  else
    let r := shutdownFd os fd
    (r.1, Call.shutdown :: r.2)

/-! ## `main`, lines 138-236 -/

/-- The memory behind the header of the record at offset `p`, from
`event->name` to the end of the array `buf`. -/
def nameTail (buf : Mem) (p : Nat) : List Nat :=
  readBytes buf (p + SIZEOF_INOTIFY_EVENT) (BUF_LEN - (p + SIZEOF_INOTIFY_EVENT))

/-- Lines 228-231 for the records of one read, the cursor being at `p`: the
entry into `displayInotifyEvent` with the record at the cursor, its output,
and the same from the advanced cursor on. -/
def displayAll (buf : Mem) : Nat → List InotifyEvent → List Call
  | _, [] => []
  | p, event :: rest =>
    Call.displayInotifyEvent event :: displayInotifyEvent event (nameTail buf p) ++
      displayAll buf (p + advance event) rest

/-- Lines 199-235: the `for (;;)` loop and the `return shutdown()` behind it,
against the answers left for `read`. -/
def watchLoop (os : OS) (fd wd : Int) : List ReadRet → Run
  | [] => ⟨[Call.read fd BUF_LEN], Outcome.blocked⟩
  | r :: rest =>
    let numRead := r.val
    if numRead = -1 then
      let e := eprintf r.errno (some "read") false
      let res := e.1
      if res = EINTR then
        let s := shutdown os fd wd
        ⟨Call.read fd BUF_LEN :: e.2 ++ s.2, Outcome.returned s.1⟩
      else
        let s := shutdown os fd wd
        ⟨Call.read fd BUF_LEN :: e.2 ++ s.2, Outcome.returned res⟩
    else
      let t := [Call.read fd BUF_LEN,
        Call.printf "Read %ld bytes from inotify file descriptor 0x%x.\n"
          [Arg.ld numRead, Arg.x (toU32 fd)]]
      if numRead = 0 then
        Run.after t (watchLoop os fd wd rest)
      else
        Run.after (t ++ displayAll r.buf 0 (eventLoop r.buf numRead)) (watchLoop os fd wd rest)

/-- Lines 175-236: after the watch is attached. `path` is the C string the
variable points to, `none` for a null pointer. -/
def mainWatch (os : OS) (fd wd : Int) (path : Option String) : Run :=
  if os.sigaction_SIGINT.val = -1 then
    let e := eprintf os.sigaction_SIGINT.errno (some "sigaction SIGINT") false
    let s := shutdown os fd wd
    ⟨Call.sigaction "SIGINT" :: e.2 ++ s.2, Outcome.returned e.1⟩
  else if os.sigaction_SIGTERM.val = -1 then
    let e := eprintf os.sigaction_SIGTERM.errno (some "sigaction SIGTERM") false
    let s := shutdown os fd wd
    ⟨Call.sigaction "SIGINT" :: Call.sigaction "SIGTERM" :: e.2 ++ s.2, Outcome.returned e.1⟩
  else
    match path with
    | none =>
      ⟨[Call.sigaction "SIGINT", Call.sigaction "SIGTERM", Call.getpid], Outcome.undefined⟩
    | some p =>
      Run.after
        [Call.sigaction "SIGINT", Call.sigaction "SIGTERM", Call.getpid,
          Call.printf
            "PID %i monitoring \"%s\" with inotify file descriptor 0x%x and inotify watch descriptor 0x%x.\n"
            [Arg.i os.getpid, Arg.s p, Arg.x (toU32 fd), Arg.x (toU32 wd)]]
        (watchLoop os fd wd os.reads)

/-- Lines 158-161: the value of `path` (`none` for a null pointer) and the
call made to find it. -/
def resolvePath (os : OS) (arg : String) : Option String × List Call :=
  if arg = "." then (os.getcwd, [Call.getcwd]) else (some arg, [])

/-- Lines 152-173 and on: from `inotify_init` on, for `argc >= 2`; `t` is the
output made before. -/
def mainInit (os : OS) (arg : String) (t : List Call) : Run :=
  let fd := os.inotify_init.val
  if fd = -1 then
    let e := eprintf os.inotify_init.errno (some "inotify_init") false
    ⟨t ++ Call.inotify_init :: e.2, Outcome.returned e.1⟩
  else
    let resolved := resolvePath os arg
    let path := resolved.1
    let wd := os.inotify_add_watch.val
    let t := t ++ Call.inotify_init :: resolved.2 ++ [Call.inotify_add_watch fd path IN_ALL_EVENTS]
    if wd = -1 then
      match path with
      | none => ⟨t, Outcome.undefined⟩
      | some p =>
        let msg := "inotify_add_watch \"" ++ p ++ "\""
        if strlen msg + 1 > 256 then ⟨t, Outcome.undefined⟩
        else
          let e := eprintf os.inotify_add_watch.errno (some msg) false
          let res := e.1
          let s := shutdown os fd wd
          ⟨t ++ e.2 ++ s.2, Outcome.returned res⟩
    else Run.after t (mainWatch os fd wd path)

/-- Lines 138-236. `argv` is the argument vector, `argc` its length. -/
def main (argv : List String) (os : OS) : Run :=
  let argc := argv.length
  let bin := if argc > 0 then argv.headD "examplemount" else "examplemount"
  let t := if argc > 0 then [] else [Call.printf "argc: %i\n" [Arg.i argc]]
  if argc < 2 then
    ⟨t ++ [Call.printf "Usage: %s <folder>\n" [Arg.s bin]], Outcome.returned 1⟩
  else mainInit os (argv.getD 1 "") t

/-! ## Definitions used to state the properties -/

/-- Memory holds `bytes` from offset `p` on. -/
def Holds (mem : Mem) (p : Nat) (bytes : List Nat) : Prop :=
  ∀ i, i < bytes.length → mem (p + i) = bytes.getD i 0

/-- The sixteen event kinds, bit and printed name, in the order of the tests
of lines 63-78. -/
def sourceKinds : List (Nat × String) :=
  [(IN_ACCESS, "IN_ACCESS "), (IN_ATTRIB, "IN_ATTRIB "),
   (IN_CLOSE_NOWRITE, "IN_CLOSE_NOWRITE "), (IN_CLOSE_WRITE, "IN_CLOSE_WRITE "),
   (IN_CREATE, "IN_CREATE "), (IN_DELETE, "IN_DELETE "),
   (IN_DELETE_SELF, "IN_DELETE_SELF "), (IN_IGNORED, "IN_IGNORED "),
   (IN_ISDIR, "IN_ISDIR "), (IN_MODIFY, "IN_MODIFY "),
   (IN_MOVE_SELF, "IN_MOVE_SELF "), (IN_MOVED_FROM, "IN_MOVED_FROM "),
   (IN_MOVED_TO, "IN_MOVED_TO "), (IN_OPEN, "IN_OPEN "),
   (IN_Q_OVERFLOW, "IN_Q_OVERFLOW "), (IN_UNMOUNT, "IN_UNMOUNT ")]

/-- The sixteen event kinds in the order of the specification's Event Record
enumeration: access, attribute-change, close-after-write, close-after-read,
create, delete, delete-of-watched-object-itself, watch-invalidated,
is-directory, modify, watched-object-moved, moved-from, moved-to, opened,
queue-overflow, unmount. -/
def specKinds : List (Nat × String) :=
  [(IN_ACCESS, "IN_ACCESS "), (IN_ATTRIB, "IN_ATTRIB "),
   (IN_CLOSE_WRITE, "IN_CLOSE_WRITE "), (IN_CLOSE_NOWRITE, "IN_CLOSE_NOWRITE "),
   (IN_CREATE, "IN_CREATE "), (IN_DELETE, "IN_DELETE "),
   (IN_DELETE_SELF, "IN_DELETE_SELF "), (IN_IGNORED, "IN_IGNORED "),
   (IN_ISDIR, "IN_ISDIR "), (IN_MODIFY, "IN_MODIFY "),
   (IN_MOVE_SELF, "IN_MOVE_SELF "), (IN_MOVED_FROM, "IN_MOVED_FROM "),
   (IN_MOVED_TO, "IN_MOVED_TO "), (IN_OPEN, "IN_OPEN "),
   (IN_Q_OVERFLOW, "IN_Q_OVERFLOW "), (IN_UNMOUNT, "IN_UNMOUNT ")]

/-- The list `kinds` filtered by the bits set in `mask`, each kept kind as
the `printf` of its name. -/
def kindsSet (mask : Nat) (kinds : List (Nat × String)) : List Call :=
  (kinds.filter (fun k => decide (mask &&& k.1 ≠ 0))).map (fun k => Call.printf k.2 [])

/-- The number of `printf` calls of `out` whose format is `fmt`. -/
def fmtCount (fmt : String) (out : List Call) : Nat :=
  out.countP (fun c => match c with
    | Call.printf f _ => decide (f = fmt)
    | _ => false)

/-- The records handed to `displayInotifyEvent` in a trace, in order. -/
def displayed (t : List Call) : List InotifyEvent :=
  t.filterMap (fun c => match c with
    | Call.displayInotifyEvent event => some event
    | _ => none)

/-- The number of calls of `read` in a trace. -/
def readCount (t : List Call) : Nat :=
  t.countP (fun c => match c with
    | Call.read _ _ => true
    | _ => false)

/-- The number of calls of `inotify_rm_watch` in a trace. -/
def rmWatchCount (t : List Call) : Nat :=
  t.countP (fun c => match c with
    | Call.inotify_rm_watch _ _ => true
    | _ => false)

/-- The number of calls of `close` in a trace. -/
def closeCount (t : List Call) : Nat :=
  t.countP (fun c => match c with
    | Call.close _ => true
    | _ => false)

/-- The number of entries into `shutdown` in a trace. -/
def shutdownCount (t : List Call) : Nat :=
  t.countP (fun c => match c with
    | Call.shutdown => true
    | _ => false)

/-- The calls of one successful read: the `read`, the byte-count line, and
the records displayed. -/
def readCalls (fd : Int) (r : ReadRet) : List Call :=
  [Call.read fd BUF_LEN,
    Call.printf "Read %ld bytes from inotify file descriptor 0x%x.\n"
      [Arg.ld r.val, Arg.x (toU32 fd)]] ++ displayAll r.buf 0 (eventLoop r.buf r.val)

/-- The calls of a sequence of successful reads. -/
def readsCalls (fd : Int) : List ReadRet → List Call
  | [] => []
  | r :: rest => readCalls fd r ++ readsCalls fd rest

/-- The run gets as far as the watch loop: a path argument is given, the
channel is opened, the path is resolved, the watch attached and both signal
handlers registered. -/
def ReachesLoop (argv : List String) (os : OS) : Prop :=
  2 ≤ argv.length ∧ os.inotify_init.val ≠ -1 ∧
    (resolvePath os (argv.getD 1 "")).1.isSome = true ∧ os.inotify_add_watch.val ≠ -1 ∧
    os.sigaction_SIGINT.val ≠ -1 ∧ os.sigaction_SIGTERM.val ≠ -1

instance (argv : List String) (os : OS) : Decidable (ReachesLoop argv os) := by
  unfold ReachesLoop; exact inferInstance

/-- The calls `main` makes before the watch loop when it gets that far. -/
def setupCalls (argv : List String) (os : OS) : List Call :=
  Call.inotify_init :: (resolvePath os (argv.getD 1 "")).2 ++
    [Call.inotify_add_watch os.inotify_init.val (resolvePath os (argv.getD 1 "")).1
       IN_ALL_EVENTS,
     Call.sigaction "SIGINT", Call.sigaction "SIGTERM", Call.getpid,
     Call.printf
       "PID %i monitoring \"%s\" with inotify file descriptor 0x%x and inotify watch descriptor 0x%x.\n"
       [Arg.i os.getpid, Arg.s ((resolvePath os (argv.getD 1 "")).1.getD ""),
         Arg.x (toU32 os.inotify_init.val), Arg.x (toU32 os.inotify_add_watch.val)]]

/-! ## Concrete inputs -/

/-- Memory of zero bytes. -/
def zeroMem : Mem := fun _ => 0

/-- The creation of `a.txt` in the watched directory; the name is padded to 8 bytes. -/
def recCreate : InotifyEvent :=
  { wd := 1, mask := 0x100, cookie := 0, len := 8, name := [97, 46, 116, 120, 116, 0, 0, 0] }

/-- A queue overflow: watch descriptor -1, no name. -/
def recOverflow : InotifyEvent :=
  { wd := -1, mask := 0x4000, cookie := 0, len := 0, name := [] }

/-- A read of 20 bytes whose only record declares 8 name bytes: the record
ends at offset 24, behind the 20 valid bytes. -/
def overrunRead : ReadRet := ⟨20, 0, load (encodeEvent recCreate) zeroMem⟩

/-- A successful read of two records, 40 bytes. -/
def twoRecordsRead : ReadRet := ⟨40, 0, load (encodeEvents [recCreate, recOverflow]) zeroMem⟩

/-- A record whose four name bytes hold no NUL. -/
def recUnterminated : InotifyEvent :=
  { wd := 1, mask := 0x100, cookie := 0, len := 4, name := [97, 98, 99, 100] }

/-- A read interrupted by a signal. -/
def interruptedRead : ReadRet := ⟨-1, EINTR, zeroMem⟩

/-- A read that fails with `EIO`. -/
def failedRead : ReadRet := ⟨-1, 5, zeroMem⟩

/-- A successful read of one record, the creation of `a.txt`. -/
def createRead : ReadRet := ⟨24, 0, load (encodeEvent recCreate) zeroMem⟩

/-- An operating system where every call succeeds: descriptor 3, watch 1, and
the given answers to `read`. -/
def osWith (reads : List ReadRet) : OS :=
  { inotify_init := ⟨3, 0⟩
    getcwd := some "/tmp/x"
    inotify_add_watch := ⟨1, 0⟩
    sigaction_SIGINT := ⟨0, 0⟩
    sigaction_SIGTERM := ⟨0, 0⟩
    getpid := 42
    reads := reads
    inotify_rm_watch := ⟨0, 0⟩
    close := ⟨0, 0⟩ }

/-- As `osWith`, but `inotify_rm_watch` fails with `EINVAL` (the watch is gone). -/
def osRmWatchFails (reads : List ReadRet) : OS :=
  { osWith reads with inotify_rm_watch := ⟨-1, 22⟩ }

/-- As `osWith`, but `inotify_rm_watch` fails with `EINVAL` and `close` with `EIO`. -/
def osCleanupFails (reads : List ReadRet) : OS :=
  { osWith reads with inotify_rm_watch := ⟨-1, 22⟩, close := ⟨-1, 5⟩ }

/-- The descriptor `inotify_init` returns is 0 (standard input was closed) and
`inotify_add_watch` fails with `ENOENT`. -/
def osFdZero : OS :=
  { osWith [] with inotify_init := ⟨0, 0⟩, inotify_add_watch := ⟨-1, 2⟩ }

/-- Here `inotify_add_watch` fails with `ENOENT`. -/
def osNoEntry : OS :=
  { osWith [] with inotify_add_watch := ⟨-1, 2⟩ }

/-- A path of 300 bytes. -/
def longPath : String := String.mk (List.replicate 300 (Char.ofNat 97))

set_option maxRecDepth 100000

/-! ## The event loop: termination -/

theorem byteAt_lt (buf : Mem) (i : Nat) : byteAt buf i < 256 := by
  unfold byteAt; omega

theorem readU32_lt (buf : Mem) (p : Nat) : readU32 buf p < 2 ^ 32 := by
  have h0 := byteAt_lt buf p
  have h1 := byteAt_lt buf (p + 1)
  have h2 := byteAt_lt buf (p + 2)
  have h3 := byteAt_lt buf (p + 3)
  unfold readU32; omega

theorem advance_eventAt (buf : Mem) (p : Nat) :
    advance (eventAt buf p) = 16 + readU32 buf (p + 12) := by
  have h := readU32_lt buf (p + 12)
  simp only [advance, eventAt, SIZEOF_INOTIFY_EVENT]
  omega

theorem eventLoopFuel_some (buf : Mem) (numRead : Int) :
    ∀ (fuel p : Nat), numRead ≤ (p : Int) + 16 * (fuel : Int) →
      ∃ evs, eventLoopFuel buf numRead fuel p = some evs ∧ evs.length ≤ fuel := by
  intro fuel
  induction fuel with
  | zero =>
    intro p h
    refine ⟨[], ?_, by simp⟩
    have : ¬ ((p : Int) < numRead) := by omega
    simp [eventLoopFuel, this]
  | succ n ih =>
    intro p h
    by_cases hp : (p : Int) < numRead
    · have hadv := advance_eventAt buf p
      obtain ⟨evs, h1, h2⟩ := ih (p + advance (eventAt buf p)) (by rw [hadv]; push_cast; omega)
      refine ⟨eventAt buf p :: evs, ?_, by simp; omega⟩
      simp [eventLoopFuel, hp, h1]
    · exact ⟨[], by simp [eventLoopFuel, hp], by simp⟩

theorem eventLoopFuel_mono (buf : Mem) (numRead : Int) :
    ∀ (fuel p : Nat) (evs : List InotifyEvent), eventLoopFuel buf numRead fuel p = some evs →
      ∀ fuel2, fuel ≤ fuel2 → eventLoopFuel buf numRead fuel2 p = some evs := by
  intro fuel
  induction fuel with
  | zero =>
    intro p evs h fuel2 _
    by_cases hp : (p : Int) < numRead
    · simp [eventLoopFuel, hp] at h
    · simp [eventLoopFuel, hp] at h
      cases fuel2 <;> simp [eventLoopFuel, hp, h]
  | succ n ih =>
    intro p evs h fuel2 hle
    obtain ⟨m, rfl⟩ : ∃ m, fuel2 = m + 1 := ⟨fuel2 - 1, by omega⟩
    by_cases hp : (p : Int) < numRead
    · simp only [eventLoopFuel, hp, if_true, Option.map_eq_some'] at h ⊢
      obtain ⟨a, ha, rfl⟩ := h
      exact ⟨a, ih _ a ha m (by omega), rfl⟩
    · simp [eventLoopFuel, hp] at h ⊢
      exact h

theorem loopBound_enough (numRead : Int) :
    numRead ≤ ((0 : Nat) : Int) + 16 * (loopBound numRead : Int) := by
  unfold loopBound
  omega

theorem eventLoopFuel_eventLoop (buf : Mem) (numRead : Int) :
    eventLoopFuel buf numRead (loopBound numRead) 0 = some (eventLoop buf numRead) := by
  obtain ⟨evs, h, _⟩ :=
    eventLoopFuel_some buf numRead (loopBound numRead) 0 (loopBound_enough numRead)
  simp [eventLoop, h]

theorem length_eventLoop (buf : Mem) (numRead : Int) :
    (eventLoop buf numRead).length ≤ loopBound numRead := by
  obtain ⟨evs, h, hl⟩ :=
    eventLoopFuel_some buf numRead (loopBound numRead) 0 (loopBound_enough numRead)
  simpa [eventLoop, h] using hl

/-- C10: for every buffer content and every byte count `numRead` (malformed
`len` fields included) the loop of lines 227-232 ends. Each iteration moves
the cursor on by `sizeof(struct inotify_event) + event->len`, at least 16
bytes; so `ceil(numRead / 16)` iterations are enough to make the loop
condition false, every larger number of iterations gives the same records, and
at most `ceil(numRead / 16)` records are displayed: at most 170 for a read of
up to `BUF_LEN` bytes. -/
theorem eventLoop_terminates (buf : Mem) (numRead : Int) :
    (∀ p, 16 ≤ advance (eventAt buf p)) ∧
    eventLoopFuel buf numRead ((numRead.toNat + 15) / 16) 0 = some (eventLoop buf numRead) ∧
    (∀ fuel, (numRead.toNat + 15) / 16 ≤ fuel →
      eventLoopFuel buf numRead fuel 0 = some (eventLoop buf numRead)) ∧
    (eventLoop buf numRead).length ≤ (numRead.toNat + 15) / 16 ∧
    (numRead ≤ (BUF_LEN : Int) → (eventLoop buf numRead).length ≤ 170) := by
  have hlen := length_eventLoop buf numRead
  refine ⟨fun p => by rw [advance_eventAt]; omega, eventLoopFuel_eventLoop buf numRead,
    fun fuel hf => eventLoopFuel_mono buf numRead _ 0 _ (eventLoopFuel_eventLoop buf numRead)
      fuel hf, hlen, ?_⟩
  intro h
  have : loopBound numRead ≤ 170 := by
    unfold loopBound
    simp only [BUF_LEN, SIZEOF_INOTIFY_EVENT, NAME_MAX] at h
    omega
  omega

/-! ## The event loop on encoded records -/

theorem holds_load (bytes : List Nat) (rest : Mem) : Holds (load bytes rest) 0 bytes := by
  intro i hi
  simp [load, List.getD_eq_getElem?_getD, List.getElem?_eq_getElem hi]

theorem holds_append_left {mem : Mem} {p : Nat} {a b : List Nat} (h : Holds mem p (a ++ b)) :
    Holds mem p a := by
  intro i hi
  have := h i (by simp; omega)
  rw [this]
  simp [List.getD_eq_getElem?_getD, List.getElem?_append_left hi]

theorem holds_append_right {mem : Mem} {p : Nat} {a b : List Nat} (h : Holds mem p (a ++ b)) :
    Holds mem (p + a.length) b := by
  intro i hi
  have := h (a.length + i) (by simp; omega)
  rw [Nat.add_assoc, this]
  simp [List.getD_eq_getElem?_getD, List.getElem?_append_right]

theorem readU32_le32 {mem : Mem} {p n : Nat} (h : Holds mem p (le32 n)) (hn : n < 2 ^ 32) :
    readU32 mem p = n := by
  have h0 := h 0 (by simp [le32])
  have h1 := h 1 (by simp [le32])
  have h2 := h 2 (by simp [le32])
  have h3 := h 3 (by simp [le32])
  simp [le32] at h0 h1 h2 h3
  simp only [readU32, byteAt, h0, h1, h2, h3]
  omega

theorem toInt32_toU32 {i : Int} (h1 : -(2 : Int) ^ 31 ≤ i) (h2 : i < 2 ^ 31) :
    toInt32 (toU32 i) = i := by
  unfold toInt32 toU32
  split <;> omega

theorem toU32_lt (i : Int) : toU32 i < 2 ^ 32 := by
  unfold toU32; omega

theorem readBytes_holds {mem : Mem} {p : Nat} {name : List Nat} (h : Holds mem p name)
    (hb : ∀ b ∈ name, b < 256) : readBytes mem p name.length = name := by
  apply List.ext_getElem
  · simp [readBytes]
  · intro i h1 h2
    have := h i h2
    simp only [readBytes, List.getElem_map, List.getElem_range, byteAt, this]
    rw [List.getD_eq_getElem?_getD, List.getElem?_eq_getElem h2]
    simp only [Option.getD_some]
    exact Nat.mod_eq_of_lt (hb _ (List.getElem_mem h2))

theorem length_encodeEvent (e : InotifyEvent) :
    (encodeEvent e).length = 16 + e.name.length := by
  simp [encodeEvent, le32]; omega

theorem eventAt_encodeEvent {mem : Mem} {p : Nat} {e : InotifyEvent}
    (h : Holds mem p (encodeEvent e)) (wf : WellFormed e) : eventAt mem p = e := by
  obtain ⟨w1, w2, w3, w4, w5, w6, w7⟩ := wf
  unfold encodeEvent at h
  have hname := holds_append_right h
  have h := holds_append_left h
  have hlen := holds_append_right h
  have h := holds_append_left h
  have hcookie := holds_append_right h
  have h := holds_append_left h
  have hmask := holds_append_right h
  have hwd := holds_append_left h
  simp only [List.length_append, le32, List.length_cons, List.length_nil] at hname hlen hcookie hmask
  have e1 := readU32_le32 hwd (toU32_lt _)
  have e2 := readU32_le32 hmask w3
  have e3 := readU32_le32 hcookie w4
  have e4 := readU32_le32 hlen w5
  have e5 := readBytes_holds hname w7
  simp only [Nat.zero_add, Nat.add_assoc, Nat.reduceAdd] at e2 e3 e4 e5
  cases e with
  | mk wd mask cookie len name =>
    simp only at w1 w2 w3 w4 w5 w6 w7 e1 e2 e3 e4 e5
    subst w6
    simp only [eventAt, e1, e2, e3, e4, e5, toInt32_toU32 w1 w2]

theorem length_le_encodeEvents (rs : List InotifyEvent) :
    16 * rs.length ≤ (encodeEvents rs).length := by
  induction rs with
  | nil => simp [encodeEvents]
  | cons e es ih =>
    have := length_encodeEvent e
    simp only [encodeEvents, List.length_append, List.length_cons]
    omega

/-- The loop over a buffer that starts, at the cursor, with the encoding of
`rs`: it displays `rs` and goes on behind them. -/
theorem eventLoopFuel_encodeEvents :
    ∀ (rs : List InotifyEvent), (∀ e ∈ rs, WellFormed e) →
      ∀ (mem : Mem) (numRead : Int) (p fuel : Nat), Holds mem p (encodeEvents rs) →
        ((p + (encodeEvents rs).length : Nat) : Int) ≤ numRead →
        eventLoopFuel mem numRead (rs.length + fuel) p =
          (eventLoopFuel mem numRead fuel (p + (encodeEvents rs).length)).map
            (fun evs => rs ++ evs) := by
  intro rs
  induction rs with
  | nil =>
    intro _ mem numRead p fuel _ _
    simp [encodeEvents]
  | cons e es ih =>
    intro wf mem numRead p fuel h hle
    have wfe : WellFormed e := wf e (by simp)
    simp only [encodeEvents] at h hle ⊢
    have hev := eventAt_encodeEvent (holds_append_left h) wfe
    have hlen := length_encodeEvent e
    have hadv : advance (eventAt mem p) = (encodeEvent e).length := by
      rw [hev, hlen, ← wfe.2.2.2.2.2.1]
      have := wfe.2.2.2.2.1
      simp only [advance, SIZEOF_INOTIFY_EVENT]
      omega
    have hp : ((p : Nat) : Int) < numRead := by
      simp only [List.length_append] at hle
      omega
    have hrec := ih (fun x hx => wf x (by simp [hx])) mem numRead (p + (encodeEvent e).length) fuel
      (holds_append_right h) (by simp only [List.length_append] at hle; omega)
    have hfuel : (e :: es).length + fuel = (es.length + fuel) + 1 := by
      simp only [List.length_cons]; omega
    rw [hfuel]
    simp only [eventLoopFuel, hp, if_true, hadv]
    rw [hrec, hev, List.length_append, ← Nat.add_assoc]
    cases eventLoopFuel mem numRead fuel (p + (encodeEvent e).length + (encodeEvents es).length) <;>
      simp

theorem eventLoop_encodeEvents (rs : List InotifyEvent) (wf : ∀ e ∈ rs, WellFormed e)
    (mem : Mem) (h : Holds mem 0 (encodeEvents rs)) :
    eventLoop mem ((encodeEvents rs).length : Int) = rs := by
  have h1 := eventLoopFuel_encodeEvents rs wf mem ((encodeEvents rs).length : Int) 0 0 h
    (by simp)
  simp only [Nat.zero_add, Nat.add_zero, eventLoopFuel, lt_self_iff_false, if_false,
    Option.map_some', List.append_nil] at h1
  have h2 := eventLoopFuel_mono mem _ _ _ _ h1 (loopBound ((encodeEvents rs).length : Int))
    (by have := length_le_encodeEvents rs; unfold loopBound; simp only [Int.toNat_ofNat]; omega)
  simp [eventLoop, h2]

theorem eventLoop_zero (buf : Mem) : eventLoop buf 0 = [] := by
  simp [eventLoop, loopBound, eventLoopFuel]

theorem eventLoop_overrun_aux (rs : List InotifyEvent) (wf : ∀ e ∈ rs, WellFormed e)
    (mem : Mem) (numRead : Int) (h : Holds mem 0 (encodeEvents rs))
    (h1 : ((encodeEvents rs).length : Int) < numRead)
    (h2 : numRead < ((encodeEvents rs).length : Int)
      + (advance (eventAt mem (encodeEvents rs).length) : Int)) :
    eventLoop mem numRead = rs ++ [eventAt mem (encodeEvents rs).length] := by
  have h3 := eventLoopFuel_encodeEvents rs wf mem numRead 0 1 h (by simp; omega)
  have h4 : ¬ (((encodeEvents rs).length + advance (eventAt mem (encodeEvents rs).length) : Nat)
      : Int) < numRead := by push_cast; omega
  have hr : eventLoopFuel mem numRead 1 (encodeEvents rs).length
      = some [eventAt mem (encodeEvents rs).length] := by
    simp only [eventLoopFuel, h1, if_true, h4, if_false, Option.map_some']
  simp only [Nat.zero_add] at h3
  rw [hr, Option.map_some'] at h3
  have h5 := eventLoopFuel_mono mem _ _ _ _ h3 (max (rs.length + 1) (loopBound numRead))
    (le_max_left _ _)
  have h6 := eventLoopFuel_mono mem _ _ _ _ (eventLoopFuel_eventLoop mem numRead)
    (max (rs.length + 1) (loopBound numRead)) (le_max_right _ _)
  rw [h5] at h6
  exact (Option.some.inj h6).symm

/-! ## The watch loop on successful reads -/

theorem watchLoop_read (os : OS) (fd wd : Int) (r : ReadRet) (more : List ReadRet)
    (h : r.val ≠ -1) :
    watchLoop os fd wd (r :: more) = Run.after (readCalls fd r) (watchLoop os fd wd more) := by
  by_cases h0 : r.val = 0
  · simp [watchLoop, h0, readCalls, eventLoop_zero, displayAll]
  · simp [watchLoop, h, h0, readCalls]

/-- The C string in memory ends at the first NUL. -/
theorem cStringIn_nul (pre rest : List Nat) (hpre : ∀ b ∈ pre, b ≠ 0) :
    cStringIn (pre ++ 0 :: rest) = some pre := by
  induction pre with
  | nil => simp [cStringIn]
  | cons b bs ih =>
    have hb : b ≠ 0 := hpre b (by simp)
    simp [cStringIn, hb, ih (fun x hx => hpre x (by simp [hx]))]

theorem readBytes_add (buf : Mem) (q a b : Nat) :
    readBytes buf q (a + b) = readBytes buf q a ++ readBytes buf (q + a) b := by
  simp [readBytes, List.range_add, List.map_append, List.map_map, Function.comp_def,
    Nat.add_assoc]

/-- The name printed for a record that lies inside the array and whose name
bytes hold a NUL (the kernel pads every name with one): the name bytes before
the first NUL. -/
theorem cStringIn_nameTail (buf : Mem) (p : Nat) (pre rest : List Nat)
    (hin : p + SIZEOF_INOTIFY_EVENT + (eventAt buf p).len ≤ BUF_LEN)
    (hname : (eventAt buf p).name = pre ++ 0 :: rest) (hpre : ∀ b ∈ pre, b ≠ 0) :
    cStringIn (nameTail buf p) = some pre := by
  have hsplit : BUF_LEN - (p + SIZEOF_INOTIFY_EVENT)
      = (eventAt buf p).len + (BUF_LEN - (p + SIZEOF_INOTIFY_EVENT + (eventAt buf p).len)) := by
    omega
  have hn : readBytes buf (p + SIZEOF_INOTIFY_EVENT) (eventAt buf p).len
      = (eventAt buf p).name := rfl
  unfold nameTail
  rw [hsplit, readBytes_add, hn, hname, List.append_assoc, List.cons_append,
    cStringIn_nul pre _ hpre]

/-- A record whose name bytes hold no NUL: `%s` runs on into the bytes behind
the record, here `EFGH`. -/
theorem displayInotifyEvent_unterminated :
    displayInotifyEvent recUnterminated
        (nameTail (load (encodeEvent recUnterminated ++ [69, 70, 71, 72, 0]) zeroMem) 0)
      = [Call.printf "Inotify event: wd = 0x%x" [Arg.x 1], Call.printf "; mask = " [],
         Call.printf "IN_CREATE " [],
         Call.printf "; name = %s" [Arg.sbytes (some [97, 98, 99, 100, 69, 70, 71, 72])],
         Call.printf "\n" []] := by
  decide

theorem displayed_append (a b : List Call) : displayed (a ++ b) = displayed a ++ displayed b := by
  simp [displayed, List.filterMap_append]

theorem displayed_printKind (mask bit : Nat) (name : String) :
    displayed (printKind mask bit name) = [] := by
  unfold printKind displayed
  split <;> rfl

theorem displayed_displayInotifyEvent (i : InotifyEvent) (atName : List Nat) :
    displayed (displayInotifyEvent i atName) = [] := by
  simp only [displayInotifyEvent, displayMask, displayed_append, displayed_printKind]
  by_cases hc : i.cookie > 0 <;> by_cases hl : i.len > 0 <;> simp [hc, hl, displayed]

theorem displayed_displayAll (buf : Mem) (evs : List InotifyEvent) :
    ∀ p, displayed (displayAll buf p evs) = evs := by
  induction evs with
  | nil => intro p; rfl
  | cons e rest ih =>
    intro p
    simp only [displayAll]
    rw [← List.singleton_append, displayed_append, displayed_append,
      displayed_displayInotifyEvent, ih]
    rfl

theorem displayed_readCalls (fd : Int) (r : ReadRet) :
    displayed (readCalls fd r) = eventLoop r.buf r.val := by
  unfold readCalls
  rw [displayed_append, displayed_displayAll]
  rfl

theorem watchLoop_reads (os : OS) (fd wd : Int) (more : List ReadRet) :
    ∀ (pre : List ReadRet), (∀ x ∈ pre, x.val ≠ -1) →
      watchLoop os fd wd (pre ++ more) = Run.after (readsCalls fd pre) (watchLoop os fd wd more) := by
  intro pre
  induction pre with
  | nil => intro _; simp [readsCalls, Run.after]
  | cons r rest ih =>
    intro h
    rw [List.cons_append, watchLoop_read os fd wd r _ (h r (by simp)),
      ih (fun x hx => h x (by simp [hx]))]
    simp [Run.after, readsCalls]

/-- C1: whenever the first `numRead` bytes of the read buffer are the
concatenation of `N` well-formed records (16-byte header `wd, mask, cookie,
len`, then `len` name bytes), the loop of lines 227-232 hands exactly those `N`
records to `displayInotifyEvent`, in buffer order and with the fields that
were encoded: they are the entries into `displayInotifyEvent` that the read
adds to the trace of the run, and the watch loop goes on to the next `read`.
A read of 0 bytes hands over no record and the watch loop goes on as well. -/
theorem eventLoop_decodes (rs : List InotifyEvent) (wf : ∀ e ∈ rs, WellFormed e)
    (buf : Mem) (h : Holds buf 0 (encodeEvents rs)) :
    eventLoop buf ((encodeEvents rs).length : Int) = rs ∧
    (∀ (os : OS) (fd wd : Int) (r : ReadRet) (more : List ReadRet),
      r.val = ((encodeEvents rs).length : Int) → r.buf = buf →
      displayed (watchLoop os fd wd (r :: more)).trace
        = rs ++ displayed (watchLoop os fd wd more).trace ∧
      watchLoop os fd wd (r :: more) =
        Run.after
          ([Call.read fd BUF_LEN,
            Call.printf "Read %ld bytes from inotify file descriptor 0x%x.\n"
              [Arg.ld r.val, Arg.x (toU32 fd)]] ++ displayAll buf 0 rs)
          (watchLoop os fd wd more)) ∧
    (∀ b : Mem, eventLoop b 0 = []) ∧
    (∀ (os : OS) (fd wd : Int) (r : ReadRet) (more : List ReadRet), r.val = 0 →
      displayed (watchLoop os fd wd (r :: more)).trace
        = displayed (watchLoop os fd wd more).trace ∧
      watchLoop os fd wd (r :: more) =
        Run.after
          [Call.read fd BUF_LEN,
            Call.printf "Read %ld bytes from inotify file descriptor 0x%x.\n"
              [Arg.ld r.val, Arg.x (toU32 fd)]]
          (watchLoop os fd wd more)) := by
  have hdec := eventLoop_encodeEvents rs wf buf h
  refine ⟨hdec, ?_, eventLoop_zero, ?_⟩
  · intro os fd wd r more hv hb
    rw [watchLoop_read os fd wd r more (by rw [hv]; omega)]
    refine ⟨?_, ?_⟩
    · simp only [Run.after, displayed_append, displayed_readCalls, hv, hb, hdec]
    · simp only [readCalls, hv, hb, hdec]
  · intro os fd wd r more hv
    rw [watchLoop_read os fd wd r more (by rw [hv]; omega)]
    refine ⟨?_, ?_⟩
    · simp [Run.after, displayed_append, displayed_readCalls, hv, eventLoop_zero]
    · simp [readCalls, hv, eventLoop_zero, displayAll]

/-- Witness of C1: two records, 40 bytes, in a run with descriptor 3 and
watch 1. -/
theorem eventLoop_decodes_witness :
    (∀ e ∈ [recCreate, recOverflow], WellFormed e) ∧
    eventLoop (load (encodeEvents [recCreate, recOverflow]) zeroMem)
      ((encodeEvents [recCreate, recOverflow]).length : Int) = [recCreate, recOverflow] ∧
    displayed (watchLoop (osWith []) 3 1 [twoRecordsRead, interruptedRead]).trace
      = [recCreate, recOverflow]
        ++ displayed (watchLoop (osWith []) 3 1 [interruptedRead]).trace :=
  ⟨by decide,
   (eventLoop_decodes [recCreate, recOverflow] (by decide) _ (holds_load _ _)).1,
   ((eventLoop_decodes [recCreate, recOverflow] (by decide) _ (holds_load _ _)).2.1
      (osWith []) 3 1 twoRecordsRead [interruptedRead] rfl rfl).1⟩

/-- C2, as stated, fails: a read of 20 bytes whose only record declares 8
name bytes (so that the cursor moves to 24, past the 20 valid bytes) is not
rejected. The record is handed to `displayInotifyEvent`, the watch loop calls
`read` again, and the run, interrupted there, returns 0. -/
theorem overrun_not_rejected :
    (0 : Int) < overrunRead.val ∧
    overrunRead.val < ((0 + advance (eventAt overrunRead.buf 0) : Nat) : Int) ∧
    eventLoop overrunRead.buf overrunRead.val = [recCreate] ∧
    Call.displayInotifyEvent recCreate ∈
      (main ["examplemount", "/tmp/x"] (osWith [overrunRead, interruptedRead])).trace ∧
    readCount (main ["examplemount", "/tmp/x"] (osWith [overrunRead, interruptedRead])).trace
      = 2 ∧
    (main ["examplemount", "/tmp/x"] (osWith [overrunRead, interruptedRead])).outcome
      = Outcome.returned EXIT_SUCCESS := by
  decide

/-- C2, amended: the loop of lines 227-232 makes no bounds check. When the
records before the last are well formed and the last record's header plus
declared name length moves the cursor past `numRead`, that record is handed to
`displayInotifyEvent` after the others, read from the memory at its offset;
the loop then ends and the watch loop goes on to the next `read`. -/
theorem eventLoop_overrun (rs : List InotifyEvent) (wf : ∀ e ∈ rs, WellFormed e)
    (buf : Mem) (numRead : Int) (h : Holds buf 0 (encodeEvents rs))
    (h1 : ((encodeEvents rs).length : Int) < numRead)
    (h2 : numRead < ((encodeEvents rs).length : Int)
      + (advance (eventAt buf (encodeEvents rs).length) : Int)) :
    eventLoop buf numRead = rs ++ [eventAt buf (encodeEvents rs).length] ∧
    (∀ (os : OS) (fd wd : Int) (r : ReadRet) (more : List ReadRet),
      r.val = numRead → r.buf = buf →
      displayed (watchLoop os fd wd (r :: more)).trace
        = rs ++ [eventAt buf (encodeEvents rs).length]
          ++ displayed (watchLoop os fd wd more).trace ∧
      watchLoop os fd wd (r :: more) =
        Run.after
          ([Call.read fd BUF_LEN,
            Call.printf "Read %ld bytes from inotify file descriptor 0x%x.\n"
              [Arg.ld r.val, Arg.x (toU32 fd)]] ++
            displayAll buf 0 (rs ++ [eventAt buf (encodeEvents rs).length]))
          (watchLoop os fd wd more)) := by
  have hov := eventLoop_overrun_aux rs wf buf numRead h h1 h2
  refine ⟨hov, ?_⟩
  intro os fd wd r more hv hb
  rw [watchLoop_read os fd wd r more (by rw [hv]; omega)]
  refine ⟨?_, ?_⟩
  · simp only [Run.after, displayed_append, displayed_readCalls, hv, hb, hov]
  · simp only [readCalls, hv, hb, hov]

/-- Witness of the amended C2: a whole record, then one that ends 4 bytes
behind the 36 valid bytes. -/
theorem eventLoop_overrun_witness :
    eventLoop (load (encodeEvents [recOverflow] ++ encodeEvent recCreate) zeroMem) 36
      = [recOverflow] ++
        [eventAt (load (encodeEvents [recOverflow] ++ encodeEvent recCreate) zeroMem)
          (encodeEvents [recOverflow]).length] :=
  (eventLoop_overrun [recOverflow] (by decide)
    (load (encodeEvents [recOverflow] ++ encodeEvent recCreate) zeroMem) 36
    (holds_append_left (holds_load _ _)) (by decide) (by decide)).1

/-! ## The formatter -/

theorem kindsSet_nil (mask : Nat) : kindsSet mask [] = [] := rfl

theorem kindsSet_cons (mask bit : Nat) (name : String) (ks : List (Nat × String)) :
    kindsSet mask ((bit, name) :: ks) = printKind mask bit name ++ kindsSet mask ks := by
  unfold kindsSet printKind
  by_cases h : mask &&& bit ≠ 0 <;> simp [List.filter_cons, h]

theorem displayMask_eq (mask : Nat) : displayMask mask = kindsSet mask sourceKinds := by
  unfold displayMask sourceKinds
  simp only [kindsSet_cons, kindsSet_nil, List.append_nil, List.append_assoc]

theorem fmtCount_append (f : String) (a b : List Call) :
    fmtCount f (a ++ b) = fmtCount f a + fmtCount f b := by
  simp [fmtCount, List.countP_append]

theorem fmtCount_printKind (f : String) (mask bit : Nat) (name : String) :
    fmtCount f (printKind mask bit name) = if mask &&& bit ≠ 0 ∧ name = f then 1 else 0 := by
  unfold fmtCount printKind
  by_cases h : mask &&& bit ≠ 0 <;> by_cases hn : name = f <;> simp [h, hn, List.countP_cons]

/-- A segment printed under a condition. -/
theorem fmtCount_segment (f : String) (c : Prop) [Decidable c] (g : String) (args : List Arg) :
    fmtCount f (if c then [Call.printf g args] else []) = if c ∧ g = f then 1 else 0 := by
  unfold fmtCount
  by_cases h : c <;> by_cases hn : g = f <;> simp [h, hn, List.countP_cons]

theorem fmtCount_single (f g : String) (args : List Arg) :
    fmtCount f [Call.printf g args] = if g = f then 1 else 0 := by
  unfold fmtCount
  by_cases hn : g = f <;> simp [hn, List.countP_cons]

/-- C3, as stated, fails: for a record with both close bits set (mask 0x18)
the names are printed as `IN_CLOSE_NOWRITE IN_CLOSE_WRITE`, while the
enumeration of the specification, filtered by the mask, gives
`IN_CLOSE_WRITE IN_CLOSE_NOWRITE`. -/
theorem displayMask_not_spec_order :
    displayMask 0x18 = [Call.printf "IN_CLOSE_NOWRITE " [], Call.printf "IN_CLOSE_WRITE " []] ∧
    kindsSet 0x18 specKinds
      = [Call.printf "IN_CLOSE_WRITE " [], Call.printf "IN_CLOSE_NOWRITE " []] ∧
    displayMask 0x18 ≠ kindsSet 0x18 specKinds ∧
    displayInotifyEvent { wd := 1, mask := 0x18, cookie := 0, len := 0, name := [] } []
      = [Call.printf "Inotify event: wd = 0x%x" [Arg.x 1], Call.printf "; mask = " [],
         Call.printf "IN_CLOSE_NOWRITE " [], Call.printf "IN_CLOSE_WRITE " [],
         Call.printf "\n" []] := by
  decide

/-- C3, amended: for every event record the kind names `displayInotifyEvent`
prints are the list IN_ACCESS, IN_ATTRIB, IN_CLOSE_NOWRITE, IN_CLOSE_WRITE,
IN_CREATE, IN_DELETE, IN_DELETE_SELF, IN_IGNORED, IN_ISDIR, IN_MODIFY,
IN_MOVE_SELF, IN_MOVED_FROM, IN_MOVED_TO, IN_OPEN, IN_Q_OVERFLOW, IN_UNMOUNT
(the order of the tests in the source, alphabetical) filtered by the bits set
in the mask; they stand between the `; mask = ` segment and the name segment. -/
theorem displayInotifyEvent_kind_order (i : InotifyEvent) (atName : List Nat) :
    displayMask i.mask = kindsSet i.mask sourceKinds ∧
    displayInotifyEvent i atName =
      [Call.printf "Inotify event: wd = 0x%x" [Arg.x (toU32 i.wd)]] ++
      (if i.cookie > 0 then [Call.printf "; cookie = 0x%x" [Arg.x i.cookie]] else []) ++
      [Call.printf "; mask = " []] ++
      kindsSet i.mask sourceKinds ++
      (if i.len > 0 then [Call.printf "; name = %s" [Arg.sbytes (cStringIn atName)]] else []) ++
      [Call.printf "\n" []] := by
  refine ⟨displayMask_eq i.mask, ?_⟩
  rw [← displayMask_eq]
  rfl

/-- C4: the sixteen event kinds are sixteen distinct single bits, and for
every event record the line of `displayInotifyEvent` starts with
the `wd` segment (hexadecimal), printed once; has the cookie segment once if
`cookie != 0` and not at all otherwise; has, for each of the sixteen event
kinds, the name of the kind once if its bit is set in the mask and not at all
otherwise, whatever the other bits are (so a mask with none of the sixteen bits
prints no kind name); and has the name segment once if `len != 0` and not at
all otherwise. -/
theorem displayInotifyEvent_segments (i : InotifyEvent) (atName : List Nat) :
    sourceKinds.map Prod.fst
      = [2 ^ 0, 2 ^ 2, 2 ^ 4, 2 ^ 3, 2 ^ 8, 2 ^ 9, 2 ^ 10, 2 ^ 15, 2 ^ 30, 2 ^ 1, 2 ^ 11,
         2 ^ 6, 2 ^ 7, 2 ^ 5, 2 ^ 14, 2 ^ 13] ∧
    (displayInotifyEvent i atName).head?
      = some (Call.printf "Inotify event: wd = 0x%x" [Arg.x (toU32 i.wd)]) ∧
    fmtCount "Inotify event: wd = 0x%x" (displayInotifyEvent i atName) = 1 ∧
    fmtCount "; cookie = 0x%x" (displayInotifyEvent i atName) = (if i.cookie ≠ 0 then 1 else 0) ∧
    (i.cookie ≠ 0 → Call.printf "; cookie = 0x%x" [Arg.x i.cookie] ∈ displayInotifyEvent i atName) ∧
    (∀ k ∈ sourceKinds,
      fmtCount k.2 (displayInotifyEvent i atName) = if i.mask &&& k.1 ≠ 0 then 1 else 0) ∧
    ((∀ k ∈ sourceKinds, i.mask &&& k.1 = 0) → displayMask i.mask = []) ∧
    fmtCount "; name = %s" (displayInotifyEvent i atName) = (if i.len ≠ 0 then 1 else 0) ∧
    (i.len ≠ 0 →
      Call.printf "; name = %s" [Arg.sbytes (cStringIn atName)] ∈ displayInotifyEvent i atName) := by
  have hc : (0 < i.cookie) = (i.cookie ≠ 0) := by simp [Nat.pos_iff_ne_zero]
  have hl : (0 < i.len) = (i.len ≠ 0) := by simp [Nat.pos_iff_ne_zero]
  have hcount : ∀ f : String, fmtCount f (displayInotifyEvent i atName) =
      (((((if "Inotify event: wd = 0x%x" = f then 1 else 0) +
        (if i.cookie ≠ 0 ∧ "; cookie = 0x%x" = f then 1 else 0)) +
        (if "; mask = " = f then 1 else 0)) +
        fmtCount f (displayMask i.mask)) +
        (if i.len ≠ 0 ∧ "; name = %s" = f then 1 else 0)) +
        (if "\n" = f then 1 else 0) := by
    intro f
    simp only [displayInotifyEvent, fmtCount_append, gt_iff_lt, hc, hl, fmtCount_segment,
      fmtCount_single]
  refine ⟨by decide, rfl, ?_, ?_, ?_, ?_, ?_, ?_, ?_⟩
  · rw [hcount]
    simp [displayMask, fmtCount_append, fmtCount_printKind]
  · rw [hcount]
    simp [displayMask, fmtCount_append, fmtCount_printKind]
  · intro h
    simp [displayInotifyEvent, Nat.pos_iff_ne_zero, h]
  · intro k hk
    rw [hcount]
    simp only [sourceKinds, List.mem_cons, List.mem_singleton, List.not_mem_nil, or_false] at hk
    rcases hk with rfl | rfl | rfl | rfl | rfl | rfl | rfl | rfl | rfl | rfl | rfl | rfl |
        rfl | rfl | rfl | rfl <;>
      simp [displayMask, fmtCount_append, fmtCount_printKind]
  · intro h
    rw [displayMask_eq]
    unfold kindsSet
    rw [List.filter_eq_nil_iff.mpr (fun k hk => by simp [h k hk])]
    rfl
  · rw [hcount]
    simp [displayMask, fmtCount_append, fmtCount_printKind]
  · intro h
    simp [displayInotifyEvent, Nat.pos_iff_ne_zero, h]

/-! ## `main` -/

theorem main_reaches {argv : List String} {os : OS} (h : ReachesLoop argv os) :
    main argv os = Run.after (setupCalls argv os)
      (watchLoop os os.inotify_init.val os.inotify_add_watch.val os.reads) := by
  obtain ⟨h1, h2, h3, h4, h5, h6⟩ := h
  have ha : ¬ argv.length < 2 := by omega
  have hb : argv.length > 0 := by omega
  obtain ⟨p, hp⟩ := Option.isSome_iff_exists.mp h3
  simp only [List.getD_eq_getElem?_getD] at hp
  simp [main, ha, hb, mainInit, h2, h4, mainWatch, h5, h6, hp, Run.after, setupCalls]

theorem main_interrupted_aux {argv : List String} {os : OS} {pre more : List ReadRet} {r : ReadRet}
    (hrun : ReachesLoop argv os) (hreads : os.reads = pre ++ r :: more)
    (hpre : ∀ x ∈ pre, x.val ≠ -1) :
    main argv os = Run.after (setupCalls argv os ++ readsCalls os.inotify_init.val pre)
      (watchLoop os os.inotify_init.val os.inotify_add_watch.val (r :: more)) := by
  rw [main_reaches hrun, hreads, watchLoop_reads _ _ _ _ _ hpre]
  simp [Run.after]

/-! ## Counting calls -/

theorem countP_displayMask (q : Call → Bool) (h1 : ∀ f a, q (Call.printf f a) = false)
    (mask : Nat) : (displayMask mask).countP q = 0 := by
  rw [displayMask_eq]
  apply List.countP_eq_zero.mpr
  intro c hc
  simp only [kindsSet, List.mem_map] at hc
  obtain ⟨k, _, rfl⟩ := hc
  simp [h1]

theorem countP_displayInotifyEvent (q : Call → Bool) (h1 : ∀ f a, q (Call.printf f a) = false)
    (i : InotifyEvent) (atName : List Nat) : (displayInotifyEvent i atName).countP q = 0 := by
  simp only [displayInotifyEvent, List.countP_append, countP_displayMask q h1]
  by_cases hc : i.cookie > 0 <;> by_cases hl : i.len > 0 <;> simp [hc, hl, h1, List.countP_cons]

theorem countP_displayAll (q : Call → Bool) (h1 : ∀ f a, q (Call.printf f a) = false)
    (h2 : ∀ e, q (Call.displayInotifyEvent e) = false) (buf : Mem)
    (evs : List InotifyEvent) : ∀ p, (displayAll buf p evs).countP q = 0 := by
  induction evs with
  | nil => intro p; simp [displayAll]
  | cons e rest ih =>
    intro p
    simp [displayAll, List.countP_cons, List.countP_append, h2,
      countP_displayInotifyEvent q h1, ih]

theorem countP_readsCalls (q : Call → Bool) (h1 : ∀ f a, q (Call.printf f a) = false)
    (h2 : ∀ e, q (Call.displayInotifyEvent e) = false) (fd : Int) (pre : List ReadRet) :
    (readsCalls fd pre).countP q = if q (Call.read fd BUF_LEN) then pre.length else 0 := by
  induction pre with
  | nil => simp [readsCalls]
  | cons r rest ih =>
    simp only [readsCalls, readCalls, List.countP_append, List.countP_cons, List.countP_nil,
      h1, countP_displayAll q h1 h2, ih, List.length_cons]
    by_cases h : q (Call.read fd BUF_LEN) = true <;> simp [h]
    omega

theorem readCount_setupCalls (argv : List String) (os : OS) :
    readCount (setupCalls argv os) = 0 := by
  unfold readCount setupCalls resolvePath
  split <;> simp [List.countP_cons]

theorem shutdownCount_setupCalls (argv : List String) (os : OS) :
    shutdownCount (setupCalls argv os) = 0 := by
  unfold shutdownCount setupCalls resolvePath
  split <;> simp [List.countP_cons]

theorem rmWatchCount_setupCalls (argv : List String) (os : OS) :
    rmWatchCount (setupCalls argv os) = 0 := by
  unfold rmWatchCount setupCalls resolvePath
  split <;> simp [List.countP_cons]

theorem closeCount_setupCalls (argv : List String) (os : OS) :
    closeCount (setupCalls argv os) = 0 := by
  unfold closeCount setupCalls resolvePath
  split <;> simp [List.countP_cons]

theorem readCount_readsCalls (fd : Int) (pre : List ReadRet) :
    readCount (readsCalls fd pre) = pre.length := by
  unfold readCount
  rw [countP_readsCalls _ (fun _ _ => rfl) (fun _ => rfl)]
  simp

theorem shutdownCount_readsCalls (fd : Int) (pre : List ReadRet) :
    shutdownCount (readsCalls fd pre) = 0 := by
  unfold shutdownCount
  rw [countP_readsCalls _ (fun _ _ => rfl) (fun _ => rfl)]
  simp

theorem rmWatchCount_readsCalls (fd : Int) (pre : List ReadRet) :
    rmWatchCount (readsCalls fd pre) = 0 := by
  unfold rmWatchCount
  rw [countP_readsCalls _ (fun _ _ => rfl) (fun _ => rfl)]
  simp

theorem closeCount_readsCalls (fd : Int) (pre : List ReadRet) :
    closeCount (readsCalls fd pre) = 0 := by
  unfold closeCount
  rw [countP_readsCalls _ (fun _ _ => rfl) (fun _ => rfl)]
  simp

/-- What `shutdown` does: it is entered once and calls neither `read` nor any
setup call; the counts of the two release calls follow its guards. -/
theorem shutdown_counts (os : OS) (fd wd : Int) :
    shutdownCount (shutdown os fd wd).2 = 1 ∧ readCount (shutdown os fd wd).2 = 0 ∧
    rmWatchCount (shutdown os fd wd).2 = (if 0 < wd then 1 else 0) ∧
    closeCount (shutdown os fd wd).2
      = (if 0 < fd ∧ ¬ (0 < wd ∧ os.inotify_rm_watch.val = -1) then 1 else 0) := by
  unfold shutdown shutdownFd eprintf shutdownCount readCount rmWatchCount closeCount
  by_cases h1 : wd > 0 <;> by_cases h2 : os.inotify_rm_watch.val = -1 <;>
    by_cases h3 : fd > 0 <;> by_cases h4 : os.close.val = -1 <;>
    simp [h1, h2, h3, h4, List.countP_cons]

/-- The code `shutdown` returns. -/
theorem shutdown_code (os : OS) (fd wd : Int) (hfd : 0 < fd) (hwd : 0 < wd) :
    (shutdown os fd wd).1 =
      if os.inotify_rm_watch.val = -1 then os.inotify_rm_watch.errno
      else if os.close.val = -1 then os.close.errno
      else EXIT_SUCCESS := by
  unfold shutdown shutdownFd eprintf
  by_cases h2 : os.inotify_rm_watch.val = -1 <;> by_cases h4 : os.close.val = -1 <;>
    simp [hfd, hwd, h2, h4]

/-! ## Exit paths of `main` -/

/-- The run of `main` when a `read` is interrupted after any number of
successful reads: the loop is left, `shutdown` runs once and its code is the
code of `main`. -/
theorem main_interrupted {argv : List String} {os : OS} {pre more : List ReadRet} {r : ReadRet}
    (hrun : ReachesLoop argv os) (hreads : os.reads = pre ++ r :: more)
    (hpre : ∀ x ∈ pre, x.val ≠ -1) (hr : r.val = -1) (he : r.errno = EINTR) :
    main argv os =
      ⟨setupCalls argv os ++ readsCalls os.inotify_init.val pre ++
        [Call.read os.inotify_init.val BUF_LEN,
          Call.fprintf_stderr "%s: (0x%x) - %s\n"
            [Arg.s "read", Arg.x (toU32 EINTR), Arg.strerror EINTR]] ++
        (shutdown os os.inotify_init.val os.inotify_add_watch.val).2,
       Outcome.returned (shutdown os os.inotify_init.val os.inotify_add_watch.val).1⟩ := by
  rw [main_interrupted_aux hrun hreads hpre]
  simp [watchLoop, hr, he, eprintf, Run.after]

/-- C5 fails on the code when `inotify_rm_watch` fails. One record is read,
the next `read` is interrupted (`EINTR`), every setup call has succeeded with
descriptor 3 and watch 1, and `inotify_rm_watch` fails with `EINVAL`:
`shutdown` is entered once and `inotify_rm_watch` called once, but `close` is
not called at all, and `main` returns 22. -/
theorem interrupted_rm_watch_fails_no_close :
    ReachesLoop ["examplemount", "/tmp/x"] (osRmWatchFails [createRead, interruptedRead]) ∧
    0 < (osRmWatchFails [createRead, interruptedRead]).inotify_init.val ∧
    0 < (osRmWatchFails [createRead, interruptedRead]).inotify_add_watch.val ∧
    shutdownCount
      (main ["examplemount", "/tmp/x"] (osRmWatchFails [createRead, interruptedRead])).trace = 1 ∧
    rmWatchCount
      (main ["examplemount", "/tmp/x"] (osRmWatchFails [createRead, interruptedRead])).trace = 1 ∧
    closeCount
      (main ["examplemount", "/tmp/x"] (osRmWatchFails [createRead, interruptedRead])).trace = 0 ∧
    (main ["examplemount", "/tmp/x"] (osRmWatchFails [createRead, interruptedRead])).outcome
      = Outcome.returned 22 := by
  decide

/-- Clean stop when `inotify_rm_watch` succeeds: when a `read` is interrupted
after any number of successful reads, with descriptor and watch positive,
`shutdown` is entered once, no further `read` is made, `inotify_rm_watch` is
called once, and if it succeeds `close` is called once, after it; if both
succeed `main` returns `EXIT_SUCCESS`. -/
theorem interrupted_clean_stop (argv : List String) (os : OS) (pre more : List ReadRet)
    (r : ReadRet) (hrun : ReachesLoop argv os) (hfd : 0 < os.inotify_init.val)
    (hwd : 0 < os.inotify_add_watch.val) (hreads : os.reads = pre ++ r :: more)
    (hpre : ∀ x ∈ pre, x.val ≠ -1) (hr : r.val = -1) (he : r.errno = EINTR) :
    shutdownCount (main argv os).trace = 1 ∧
    readCount (main argv os).trace = pre.length + 1 ∧
    rmWatchCount (main argv os).trace = 1 ∧
    (os.inotify_rm_watch.val ≠ -1 →
      closeCount (main argv os).trace = 1 ∧
      ∃ t rest, (main argv os).trace =
        t ++ Call.inotify_rm_watch os.inotify_init.val os.inotify_add_watch.val ::
          Call.printf "Closing inotify file  descriptor 0x%x.\n"
            [Arg.x (toU32 os.inotify_init.val)] ::
          Call.close os.inotify_init.val :: rest) ∧
    (os.inotify_rm_watch.val ≠ -1 → os.close.val ≠ -1 →
      (main argv os).outcome = Outcome.returned EXIT_SUCCESS) := by
  have hm := main_interrupted hrun hreads hpre hr he
  have hs := shutdown_counts os os.inotify_init.val os.inotify_add_watch.val
  have hcode := shutdown_code os os.inotify_init.val os.inotify_add_watch.val hfd hwd
  rw [hm]
  refine ⟨?_, ?_, ?_, ?_, ?_⟩
  · simp only [shutdownCount, List.countP_append] at hs ⊢
    have h1 := shutdownCount_setupCalls argv os
    have h2 := shutdownCount_readsCalls os.inotify_init.val pre
    simp only [shutdownCount] at h1 h2
    rw [h1, h2, hs.1]
    simp [List.countP_cons]
  · simp only [readCount, List.countP_append] at hs ⊢
    have h1 := readCount_setupCalls argv os
    have h2 := readCount_readsCalls os.inotify_init.val pre
    simp only [readCount] at h1 h2
    rw [h1, h2, hs.2.1]
    simp [List.countP_cons]
  · simp only [rmWatchCount, List.countP_append] at hs ⊢
    have h1 := rmWatchCount_setupCalls argv os
    have h2 := rmWatchCount_readsCalls os.inotify_init.val pre
    simp only [rmWatchCount] at h1 h2
    rw [h1, h2, hs.2.2.1]
    simp [List.countP_cons, hwd]
  · intro hrm
    constructor
    · simp only [closeCount, List.countP_append] at hs ⊢
      have h1 := closeCount_setupCalls argv os
      have h2 := closeCount_readsCalls os.inotify_init.val pre
      simp only [closeCount] at h1 h2
      rw [h1, h2, hs.2.2.2]
      simp [List.countP_cons, hfd, hrm]
    · refine ⟨setupCalls argv os ++ readsCalls os.inotify_init.val pre ++
          [Call.read os.inotify_init.val BUF_LEN,
            Call.fprintf_stderr "%s: (0x%x) - %s\n"
              [Arg.s "read", Arg.x (toU32 EINTR), Arg.strerror EINTR]] ++
          [Call.shutdown,
            Call.printf "Closing inotify watch descriptor 0x%x.\n"
              [Arg.x (toU32 os.inotify_add_watch.val)]],
        (if os.close.val = -1 then
          (eprintf os.close.errno (some ("close 0x" ++ hex (toU32 os.inotify_init.val))) false).2
         else []), ?_⟩
      by_cases hcl : os.close.val = -1 <;>
        simp [shutdown, shutdownFd, hwd, hfd, hrm, hcl]
  · intro hrm hcl
    simp [hcode, hrm, hcl]

/-- C6 fails on the code when `inotify_rm_watch` fails: `shutdown` returns at
line 121 and never reaches `close`. With descriptor 3 and watch 1 attached
and `inotify_rm_watch` failing with `EINVAL`, on the path of a failed `read`
(`EIO`) `main` returns 5 and on the path of a failed registration of
`SIGTERM` it returns 22; on both `inotify_rm_watch` is called once and `close`
not at all. -/
theorem rm_watch_failure_skips_close :
    ReachesLoop ["examplemount", "/tmp/x"] (osRmWatchFails [createRead, failedRead]) ∧
    0 < (osRmWatchFails [createRead, failedRead]).inotify_init.val ∧
    0 < (osRmWatchFails [createRead, failedRead]).inotify_add_watch.val ∧
    (main ["examplemount", "/tmp/x"] (osRmWatchFails [createRead, failedRead])).outcome
      = Outcome.returned 5 ∧
    rmWatchCount (main ["examplemount", "/tmp/x"] (osRmWatchFails [createRead, failedRead])).trace
      = 1 ∧
    closeCount (main ["examplemount", "/tmp/x"] (osRmWatchFails [createRead, failedRead])).trace
      = 0 ∧
    (main ["examplemount", "/tmp/x"]
      { osRmWatchFails [] with sigaction_SIGTERM := ⟨-1, 22⟩ }).outcome = Outcome.returned 22 ∧
    rmWatchCount (main ["examplemount", "/tmp/x"]
      { osRmWatchFails [] with sigaction_SIGTERM := ⟨-1, 22⟩ }).trace = 1 ∧
    closeCount (main ["examplemount", "/tmp/x"]
      { osRmWatchFails [] with sigaction_SIGTERM := ⟨-1, 22⟩ }).trace = 0 := by
  decide

/-- C7: when the run has reached the watch loop and, after any number of
successful reads, `read` returns -1 with `errno = e`, `e` not `EINTR`: no
further `read` is made, `shutdown` is entered (once), and `main` returns
exactly `e`, whatever `inotify_rm_watch` and `close` answer and so whatever
`shutdown` returns. -/
theorem read_failure_returns_errno (argv : List String) (os : OS) (pre more : List ReadRet)
    (r : ReadRet) (e : Int) (hrun : ReachesLoop argv os) (hreads : os.reads = pre ++ r :: more)
    (hpre : ∀ x ∈ pre, x.val ≠ -1) (hr : r.val = -1) (he : r.errno = e) (hne : e ≠ EINTR) :
    (main argv os).outcome = Outcome.returned e ∧
    (main argv os).trace =
      setupCalls argv os ++ readsCalls os.inotify_init.val pre ++
        [Call.read os.inotify_init.val BUF_LEN,
          Call.fprintf_stderr "%s: (0x%x) - %s\n" [Arg.s "read", Arg.x (toU32 e), Arg.strerror e]] ++
        (shutdown os os.inotify_init.val os.inotify_add_watch.val).2 ∧
    readCount (main argv os).trace = pre.length + 1 ∧
    shutdownCount (main argv os).trace = 1 := by
  have hm : main argv os =
      ⟨setupCalls argv os ++ readsCalls os.inotify_init.val pre ++
        [Call.read os.inotify_init.val BUF_LEN,
          Call.fprintf_stderr "%s: (0x%x) - %s\n" [Arg.s "read", Arg.x (toU32 e), Arg.strerror e]] ++
        (shutdown os os.inotify_init.val os.inotify_add_watch.val).2,
       Outcome.returned e⟩ := by
    rw [main_interrupted_aux hrun hreads hpre]
    simp [watchLoop, hr, he, hne, eprintf, Run.after]
  have hs := shutdown_counts os os.inotify_init.val os.inotify_add_watch.val
  rw [hm]
  refine ⟨rfl, rfl, ?_, ?_⟩
  · simp only [readCount, List.countP_append] at hs ⊢
    have h1 := readCount_setupCalls argv os
    have h2 := readCount_readsCalls os.inotify_init.val pre
    simp only [readCount] at h1 h2
    rw [h1, h2, hs.2.1]
    simp [List.countP_cons]
  · simp only [shutdownCount, List.countP_append] at hs ⊢
    have h1 := shutdownCount_setupCalls argv os
    have h2 := shutdownCount_readsCalls os.inotify_init.val pre
    simp only [shutdownCount] at h1 h2
    rw [h1, h2, hs.1]
    simp [List.countP_cons]

/-- Witness of C7: one record is read, the next `read` fails with `EIO` (5),
and both release calls fail (`EINVAL`, `EIO`); `main` returns 5. -/
theorem read_failure_returns_errno_witness :
    (main ["examplemount", "/tmp/x"] (osCleanupFails [createRead, failedRead])).outcome
      = Outcome.returned 5 :=
  (read_failure_returns_errno ["examplemount", "/tmp/x"] (osCleanupFails [createRead, failedRead])
    [createRead] [] failedRead 5 (by decide) rfl (by decide) rfl rfl (by decide)).1

/-- C8: after a clean stop (the run has reached the watch loop with `fd > 0`
and `wd > 0`, and `read` is interrupted with `EINTR` after any number of
successful reads) the code `main` returns is the result of `shutdown`: the
`errno` of `inotify_rm_watch` if that call fails; otherwise the `errno` of
`close` if that call fails; otherwise `EXIT_SUCCESS`. -/
theorem clean_stop_exit_code (argv : List String) (os : OS) (pre more : List ReadRet)
    (r : ReadRet) (hrun : ReachesLoop argv os) (hfd : 0 < os.inotify_init.val)
    (hwd : 0 < os.inotify_add_watch.val) (hreads : os.reads = pre ++ r :: more)
    (hpre : ∀ x ∈ pre, x.val ≠ -1) (hr : r.val = -1) (he : r.errno = EINTR) :
    (main argv os).outcome
      = Outcome.returned (shutdown os os.inotify_init.val os.inotify_add_watch.val).1 ∧
    (shutdown os os.inotify_init.val os.inotify_add_watch.val).1 =
      (if os.inotify_rm_watch.val = -1 then os.inotify_rm_watch.errno
       else if os.close.val = -1 then os.close.errno
       else EXIT_SUCCESS) := by
  rw [main_interrupted hrun hreads hpre hr he]
  exact ⟨rfl, shutdown_code os _ _ hfd hwd⟩

/-- Witness of C8: `inotify_rm_watch` fails with `EINVAL` (22) and `close`
would fail with `EIO`; `main` returns 22. -/
theorem clean_stop_exit_code_witness :
    (main ["examplemount", "/tmp/x"] (osCleanupFails [createRead, interruptedRead])).outcome
      = Outcome.returned 22 :=
  (clean_stop_exit_code ["examplemount", "/tmp/x"] (osCleanupFails [createRead, interruptedRead])
    [createRead] [] interruptedRead (by decide) (by decide) (by decide) rfl (by decide) rfl
    rfl).1

/-- C9, as stated, fails. When `inotify_init` returns descriptor 0 and
`inotify_add_watch` fails with `ENOENT`, `main` returns 2 without calling
`close`: the guard `fd > 0` of `shutdown` takes descriptor 0 for "not opened".
And for a path of 300 bytes the diagnostic does not fit `msg[256]`: `sprintf`
writes past the array and the behaviour is undefined. -/
theorem add_watch_failure_not_always_closed :
    osFdZero.inotify_init.val ≠ -1 ∧ osFdZero.inotify_add_watch.val = -1 ∧
    (main ["examplemount", "/nonexistent"] osFdZero).outcome = Outcome.returned 2 ∧
    closeCount (main ["examplemount", "/nonexistent"] osFdZero).trace = 0 ∧
    strlen longPath = 300 ∧
    (main ["examplemount", longPath] osNoEntry).outcome = Outcome.undefined := by
  decide

/-- C9, amended: for every path argument that resolves to a path `p` whose
diagnostic `inotify_add_watch "p"` fits `msg[256]`, and every error code `e`:
when `inotify_init` does not return -1 and `inotify_add_watch` returns -1 with
`errno = e`, `main` returns exactly `e`, never calls `read` nor
`inotify_rm_watch`, prints the diagnostic naming `inotify_add_watch` and the
path, then enters `shutdown`, which calls `close(fd)` once if `fd > 0` and not
at all if `fd` is 0. -/
theorem add_watch_failure (argv : List String) (os : OS) (p : String) (e : Int)
    (hargc : 2 ≤ argv.length) (hinit : os.inotify_init.val ≠ -1)
    (hpath : (resolvePath os (argv.getD 1 "")).1 = some p)
    (hfits : strlen ("inotify_add_watch \"" ++ p ++ "\"") + 1 ≤ 256)
    (hadd : os.inotify_add_watch.val = -1) (he : os.inotify_add_watch.errno = e) :
    (main argv os).outcome = Outcome.returned e ∧
    (main argv os).trace =
      Call.inotify_init :: (resolvePath os (argv.getD 1 "")).2 ++
        [Call.inotify_add_watch os.inotify_init.val (some p) IN_ALL_EVENTS,
          Call.fprintf_stderr "%s: (0x%x) - %s\n"
            [Arg.s ("inotify_add_watch \"" ++ p ++ "\""), Arg.x (toU32 e), Arg.strerror e]] ++
        (shutdown os os.inotify_init.val (-1)).2 ∧
    readCount (main argv os).trace = 0 ∧
    rmWatchCount (main argv os).trace = 0 ∧
    closeCount (main argv os).trace = (if 0 < os.inotify_init.val then 1 else 0) := by
  have ha : ¬ argv.length < 2 := by omega
  have hb : argv.length > 0 := by omega
  have hf : ¬ (256 < strlen ("inotify_add_watch \"" ++ p ++ "\"") + 1) := by omega
  have hm : main argv os =
      ⟨Call.inotify_init :: (resolvePath os (argv.getD 1 "")).2 ++
        [Call.inotify_add_watch os.inotify_init.val (some p) IN_ALL_EVENTS,
          Call.fprintf_stderr "%s: (0x%x) - %s\n"
            [Arg.s ("inotify_add_watch \"" ++ p ++ "\""), Arg.x (toU32 e), Arg.strerror e]] ++
        (shutdown os os.inotify_init.val (-1)).2, Outcome.returned e⟩ := by
    simp only [main, ha, hb, if_true, if_false, mainInit, hinit, hadd, hpath, gt_iff_lt, hf,
      eprintf, he, List.nil_append]
    simp
  have hs := shutdown_counts os os.inotify_init.val (-1)
  rw [hm]
  refine ⟨rfl, rfl, ?_, ?_, ?_⟩
  · simp only [readCount, List.countP_append, List.countP_cons] at hs ⊢
    rw [hs.2.1]
    unfold resolvePath
    split <;> simp
  · simp only [rmWatchCount, List.countP_append, List.countP_cons] at hs ⊢
    rw [hs.2.2.1]
    unfold resolvePath
    split <;> simp
  · simp only [closeCount, List.countP_append, List.countP_cons] at hs ⊢
    rw [hs.2.2.2]
    unfold resolvePath
    split <;> simp

/-- Witness of the amended C9: a path that does not exist, descriptor 3,
`ENOENT`. -/
theorem add_watch_failure_witness :
    (main ["examplemount", "/nonexistent"] osNoEntry).outcome = Outcome.returned 2 ∧
    closeCount (main ["examplemount", "/nonexistent"] osNoEntry).trace = 1 :=
  ⟨(add_watch_failure ["examplemount", "/nonexistent"] osNoEntry "/nonexistent" 2 (by decide)
      (by decide) rfl (by decide) rfl rfl).1,
   (add_watch_failure ["examplemount", "/nonexistent"] osNoEntry "/nonexistent" 2 (by decide)
      (by decide) rfl (by decide) rfl rfl).2.2.2.2⟩

end Examplemount
